import Mathlib

/-!
# Verification of the pattern-inverter transform engine

Shallow embedding of `src/maxmsp/patterninverter.js` (a Max/MSP `js` object
that transforms pitch/rest step sequences and a stored envelope ("sustain")
sequence under five modes), together with proofs checking the
natural-language specification against it.

Modelling conventions:
* A JavaScript value flowing through the pitch pipeline is either a number
  (modelled as `Int`, since all inputs are integer message atoms) or the
  non-number `undefined`/`NaN`; we model it as `Option Int`, `none` standing
  for undefined/NaN.  JS comparisons `v == -1` and `v >= 0` are `false` on
  non-numbers, and arithmetic on a non-number yields a non-number, which the
  operations below reproduce.
* JS `%` is the truncated remainder (sign of the dividend); we model it with
  `Int.tmod`.  `x % 0` is `NaN`, modelled as `none`.
* The script's mutable globals `sustainList`, `updateMode`, `scaleLength`
  are the persistent engine state (`EngineState`).  The globals
  `restValue = -1`, `matrixRow = 0`, `maxPatternRange = 15`,
  `full/attack/sustain/release` and `envelopeInverseMap` are never written
  by any handler, so they are embedded as constants.  The globals
  `valueOut`/`sustainOut` are overwritten wholesale by every transform before
  `output()` reads them, so they are modelled as return values.
* `sustainOut.push(i, matrixRow, stage)` pushes three scalars; we model the
  flat triple stream as a list of triples `(index, row, stage)`.
-/

namespace PatternInverter

/-- A JS numeric-or-undefined value: `some n` is the number `n`, `none` is
`undefined`/`NaN`. -/
abbrev JSV := Option Int

/-- JS test `v == -1` (false on `undefined`/`NaN`). -/
def isRestJS (v : JSV) : Bool :=
  match v with
  | some n => decide (n = -1)
  | none => false

/-- JS test `v >= 0` (false on `undefined`/`NaN`). -/
def geZero (v : JSV) : Bool :=
  match v with
  | some n => decide (0 ≤ n)
  | none => false

/-- JS subtraction: a non-number operand propagates to `NaN`. -/
def jsub : JSV → JSV → JSV
  | some a, some b => some (a - b)
  | _, _ => none

/-- JS addition: a non-number operand propagates to `NaN`. -/
def jadd : JSV → JSV → JSV
  | some a, some b => some (a + b)
  | _, _ => none

/-- JS remainder `v % base`: truncated remainder (`Int.tmod`), `NaN` when the
divisor is `0` or the dividend is a non-number. -/
def jmod (v : JSV) (base : Int) : JSV :=
  match v with
  | some n => if base = 0 then none else some (Int.tmod n base)
  | none => none

/-- Global `restValue = -1` (never reassigned in the source). -/
def restValue : Int := -1

/-- Global `matrixRow = 0` (never reassigned in the source). -/
def matrixRowC : Int := 0

/-- Global `maxPatternRange = 15` (never reassigned in the source: `msg_int`
only writes `updateMode` on inlet 2 and `scaleLength` on inlet 3). -/
def maxPatternRangeC : Int := 15

/-- Envelope stage code `full = 0`. -/
def full : Int := 0

/-- Envelope stage code `attack = 1`. -/
def attack : Int := 1

/-- Envelope stage code `sustain = 2`. -/
def sustain : Int := 2

/-- Envelope stage code `release = 3`. -/
def release : Int := 3

/-- The source object `envelopeInverseMap`, keyed by the four stage codes:
`full ↦ full`, `attack ↦ release`, `sustain ↦ sustain`, `release ↦ attack`.
A JS property lookup on any other key yields `undefined` (`none`). -/
def envelopeInverseMap (s : Int) : JSV :=
  if s = full then some full
  else if s = attack then some release
  else if s = sustain then some sustain
  else if s = release then some attack
  else none

/-- One emitted sustain entry `(index, matrixRow, stage)`; the source pushes
the three scalars consecutively onto the flat `sustainOut` array. -/
abbrev Tagged := Nat × Int × JSV

/-- The loop `for (i = 0; i < sustainList.length; i++)
sustainOut.push(i, matrixRow, sustainList[i])`, shared by `identity`,
`noteReverse` and `inverse`: tag each stored stage with its ascending index,
unchanged.  The first argument of the recursion is the loop counter. -/
def tagFrom (row : Int) : Nat → List Int → List Tagged
  | _, [] => []
  | i, s :: rest => (i, row, some s) :: tagFrom row (i + 1) rest

/-- Function `identity(valueList)`: the pitch list is copied element by element
(unchanged) and the sustain list is tagged unchanged in ascending order. -/
def identity (row : Int) (sustainList : List Int) (valueList : List JSV) :
    List JSV × List Tagged :=
  (valueList, tagFrom row 0 sustainList)

/-- The `trueReverse` sustain loop.  The source iterates
`for (i = sustainList.length - 1; i >= 0; i--)` but reads *and* pushes index
`sustainList.length - i - 1`, which runs `0, 1, ..., length - 1` as `i`
descends: so the entries are pushed in ascending index order and position
`j` receives `envelopeInverseMap[sustainList[j]]` — the stage sequence is
mapped elementwise and NOT reversed (despite the comment in the source
saying "copy over sustain in reverse").  The counter argument is `j`. -/
def tagMapped (row : Int) : Nat → List Int → List Tagged
  | _, [] => []
  | j, s :: rest => (j, row, envelopeInverseMap s) :: tagMapped row (j + 1) rest

/-- Function `trueReverse(valueList)`: the pitch loop assigns
`valueOut[i] = valueList[length - i - 1]` for every `i`, i.e. the full
reversal of the pitch list; the sustain output is `tagMapped` (see there). -/
def trueReverse (row : Int) (sustainList : List Int) (valueList : List JSV) :
    List JSV × List Tagged :=
  (valueList.reverse, tagMapped row 0 sustainList)

/-- The `noteReverse` collection loop: scan the input left to right with the
index counter, keeping `(index, note)` for every element with `note >= 0`
(the source pushes onto the parallel arrays `enabledIndexes` and
`enabledNotes` in lockstep). -/
def collectEnabled : Nat → List JSV → List (Nat × JSV)
  | _, [] => []
  | i, v :: rest =>
    if geZero v then (i, v) :: collectEnabled (i + 1) rest
    else collectEnabled (i + 1) rest

/-- The `noteReverse` write-back loop: `valueOut[idx] = note` for each pair in
order (the source walks `enabledIndexes` — already reversed — and
`enabledNotes` in lockstep). -/
def writeNotes : List (Nat × JSV) → List JSV → List JSV
  | [], out => out
  | (idx, note) :: rest, out => writeNotes rest (out.set idx note)

/-- The pitch part of `noteReverse(valueList)`: fill `valueOut` with
`restValue`, collect the `(index, note)` pairs with `note >= 0`, reverse the
index list only, and write note `i` (in collection order) at reversed index
`i`. -/
def noteReversePitch (rv : Int) (valueList : List JSV) : List JSV :=
  writeNotes
    (((collectEnabled 0 valueList).map Prod.fst).reverse.zip
      ((collectEnabled 0 valueList).map Prod.snd))
    (List.replicate valueList.length (some rv))

/-- Function `noteReverse(valueList)`: reversed sounding notes, sustain tagged
unchanged. -/
def noteReverse (rv row : Int) (sustainList : List Int) (valueList : List JSV) :
    List JSV × List Tagged :=
  (noteReversePitch rv valueList, tagFrom row 0 sustainList)

/-- The first `inverse` loop (`for i = 1`): distances between consecutive
non-rest values.  `prev` is the running previous-non-rest cursor; a value
`== -1` contributes distance `0` and leaves the cursor alone, any other
value `c` contributes `prev - c` and moves the cursor to `c`. -/
def distTail (prev : JSV) : List JSV → List JSV
  | [] => []
  | c :: rest =>
    if isRestJS c then some 0 :: distTail prev rest
    else jsub prev c :: distTail c rest

/-- The second `inverse` loop (`for i = 1`): rebuild the list from the
distances.  `prevOut` is `updatedList[i-1]`, the element appended in the
previous step (so after a rest it is the rest value `-1` itself); a rest
input appends `-1`, any other input appends
`(updatedList[i-1] + distanceList[i]) % maxPatternRange`. -/
def updTail (base : Int) : JSV → List JSV → List JSV → List JSV
  | _, [], _ => []
  | _, _ :: _, [] => []
  | prevOut, v :: vs, d :: ds =>
    if isRestJS v then some (-1) :: updTail base (some (-1)) vs ds
    else
      jmod (jadd prevOut d) base ::
        updTail base (jmod (jadd prevOut d) base) vs ds

/-- The `updatedList` built by `inverse(valueList)` (also its return value,
and the list copied into `valueOut`).  `updatedList[0] = valueList[0]`: for
an empty input this is JS `undefined` (`none`), `distanceList = [0]` and
neither `for i = 1` loop runs, so the result is the one-element list
`[undefined]`; for `x :: xs` both loops run down the tail in lockstep. -/
def inverseRun (base : Int) (valueList : List JSV) : List JSV :=
  match valueList with
  | [] => [none]
  | x :: xs => x :: updTail base x xs (distTail x xs)

/-- Function `inverse(valueList)`: pitch output is `inverseRun`, sustain tagged
unchanged. -/
def inverse (base row : Int) (sustainList : List Int) (valueList : List JSV) :
    List JSV × List Tagged :=
  (inverseRun base valueList, tagFrom row 0 sustainList)

/-- Function `reverseInverse(valueList)`: `inverse` runs first (its `valueOut` and
`sustainOut` are then overwritten) and its returned `updatedList` is fed to
`trueReverse`, whose outputs are the ones that remain. -/
def reverseInverse (base row : Int) (sustainList : List Int)
    (valueList : List JSV) : List JSV × List Tagged :=
  trueReverse row sustainList (inverseRun base valueList)

/-- The persistent engine state: the mutable globals that survive between
messages and are ever written by a handler (`sustainList` by inlet 1,
`updateMode` by `msg_int` on inlet 2, `scaleLength` by `msg_int` on
inlet 3). -/
structure EngineState where
  sustainList : List Int
  updateMode : Int
  scaleLength : Int
deriving DecidableEq

/-- The state after loading the script: `sustainList` empty, `updateMode 0`,
`scaleLength 7`. -/
def initialState : EngineState := ⟨[], 0, 7⟩

/-- The mode dispatch in `list()` on inlet 0: `0 → identity`,
`1 → noteReverse`, `2 → trueReverse`, `3 → inverse`, anything else falls
through to `reverseInverse`. -/
def runTransform (st : EngineState) (valueList : List JSV) :
    List JSV × List Tagged :=
  if st.updateMode = 0 then identity matrixRowC st.sustainList valueList
  else if st.updateMode = 1 then
    noteReverse restValue matrixRowC st.sustainList valueList
  else if st.updateMode = 2 then trueReverse matrixRowC st.sustainList valueList
  else if st.updateMode = 3 then
    inverse maxPatternRangeC matrixRowC st.sustainList valueList
  else reverseInverse maxPatternRangeC matrixRowC st.sustainList valueList

/-- The only error the script can raise: the `throw` in `list()` when
`sustainList.length <= 0`. -/
inductive Err where
  | missingEnvelope
deriving DecidableEq

/-- A message sent out by `output()`: the tagged sustain list on outlet 1 or
the pitch list on outlet 0. -/
inductive Msg where
  | env (t : List Tagged)
  | pitch (v : List JSV)
deriving DecidableEq

/-- Function `output()`: emit `sustainOut` on outlet 1 only when non-empty, then
always emit `valueOut` on outlet 0. -/
def outputMsgs (p : List JSV × List Tagged) : List Msg :=
  (if 0 < p.2.length then [Msg.env p.2] else []) ++ [Msg.pitch p.1]

/-- An inbound message, by inlet: a pitch list on inlet 0, a sustain list on
inlet 1, `msg_int` on inlet 2 (update mode) or inlet 3 (scale length). -/
inductive Event where
  | pitches (l : List Int)
  | envelope (l : List Int)
  | setMode (i : Int)
  | setScale (i : Int)
deriving DecidableEq

/-- Whether an event is the inlet-1 sustain-list message. -/
def isSetEnvelope : Event → Bool
  | .envelope _ => true
  | _ => false

/-- One message delivery.  Inlet 0 (`list()`): if the stored sustain list is
empty the handler throws before computing or emitting anything, leaving all
state as it was; otherwise it runs the selected transform on the incoming
numbers and `output()` emits (no persistent global is written).  Inlet 1
replaces `sustainList` wholesale; inlets 2 and 3 set one configuration
integer. -/
def step (st : EngineState) (e : Event) : EngineState × Except Err (List Msg) :=
  match e with
  | .pitches l =>
    if st.sustainList.length ≤ 0 then (st, .error .missingEnvelope)
    else (st, .ok (outputMsgs (runTransform st (l.map some))))
  | .envelope l => ({ st with sustainList := l }, .ok [])
  | .setMode i => ({ st with updateMode := i }, .ok [])
  | .setScale i => ({ st with scaleLength := i }, .ok [])

/-- Run a list of message deliveries from a state, keeping only the state. -/
def runEvents (st : EngineState) : List Event → EngineState
  | [] => st
  | e :: rest => runEvents (step st e).1 rest

/-- Structural recharacterisation of the `noteReverse` write-back, used in
the proofs below: walk the input; a slot whose value passes `>= 0` takes the
next value from the supply list `ns`, any other slot becomes the rest value.
`noteReversePitch` is proved equal to `refill` applied to the reversed list
of collected notes. -/
def refill (rv : Int) : List JSV → List JSV → List JSV
  | [], _ => []
  | _ :: xs, [] => some rv :: refill rv xs []
  | x :: xs, n :: rest =>
    if geZero x then n :: refill rv xs rest
    else some rv :: refill rv xs (n :: rest)

/-! ## Helper lemmas -/

theorem length_writeNotes (ps : List (Nat × JSV)) (out : List JSV) :
    (writeNotes ps out).length = out.length := by
  induction ps generalizing out with
  | nil => rfl
  | cons p rest ih =>
    obtain ⟨i, v⟩ := p
    simp [writeNotes, ih, List.length_set]

theorem writeNotes_getElem?_not_mem (ps : List (Nat × JSV)) (out : List JSV)
    (j : Nat) (hj : j ∉ ps.map Prod.fst) :
    (writeNotes ps out)[j]? = out[j]? := by
  induction ps generalizing out with
  | nil => rfl
  | cons p rest ih =>
    obtain ⟨i, v⟩ := p
    simp only [List.map_cons, List.mem_cons, not_or] at hj
    rw [writeNotes, ih _ hj.2, List.getElem?_set_ne (fun h => hj.1 h.symm)]

theorem writeNotes_getElem?_mem (ps : List (Nat × JSV)) (out : List JSV)
    (j : Nat) (v : JSV) (hnd : (ps.map Prod.fst).Nodup) (hmem : (j, v) ∈ ps)
    (hj : j < out.length) : (writeNotes ps out)[j]? = some v := by
  induction ps generalizing out with
  | nil => cases hmem
  | cons p rest ih =>
    obtain ⟨i, w⟩ := p
    simp only [List.map_cons, List.nodup_cons] at hnd
    rcases List.mem_cons.1 hmem with hhead | htail
    · obtain ⟨hji, hvw⟩ := Prod.mk.injEq .. ▸ hhead
      subst hji; subst hvw
      rw [writeNotes, writeNotes_getElem?_not_mem _ _ _ hnd.1,
        List.getElem?_set_self (by simpa [List.length_set] using hj)]
    · rw [writeNotes]
      exact ih _ hnd.2 htail (by simpa [List.length_set] using hj)

/-- Writing at pairwise-distinct indices is order-independent. -/
theorem writeNotes_perm (ps qs : List (Nat × JSV)) (out : List JSV)
    (hperm : ps.Perm qs) (hnd : (ps.map Prod.fst).Nodup) :
    writeNotes ps out = writeNotes qs out := by
  have hndq : (qs.map Prod.fst).Nodup := (hperm.map Prod.fst).nodup hnd
  apply List.ext_getElem?
  intro j
  by_cases hlen : j < out.length
  · by_cases hj : j ∈ ps.map Prod.fst
    · obtain ⟨p, hp, hfst⟩ := List.mem_map.1 hj
      obtain ⟨i, v⟩ := p
      cases hfst
      rw [writeNotes_getElem?_mem _ _ _ _ hnd hp hlen,
        writeNotes_getElem?_mem _ _ _ _ hndq (hperm.mem_iff.1 hp) hlen]
    · have hjq : j ∉ qs.map Prod.fst := fun h =>
        hj ((hperm.map Prod.fst).mem_iff.2 h)
      rw [writeNotes_getElem?_not_mem _ _ _ hj,
        writeNotes_getElem?_not_mem _ _ _ hjq]
  · rw [List.getElem?_eq_none, List.getElem?_eq_none]
    · rw [length_writeNotes]; omega
    · rw [length_writeNotes]; omega

theorem writeNotes_shift (ps : List (Nat × JSV)) (a : JSV) (out : List JSV) :
    writeNotes (ps.map fun p => (p.1 + 1, p.2)) (a :: out)
      = a :: writeNotes ps out := by
  induction ps generalizing out with
  | nil => rfl
  | cons p rest ih =>
    obtain ⟨i, v⟩ := p
    simp only [List.map_cons, writeNotes, List.set_cons_succ]
    exact ih _

theorem collectEnabled_succ (l : List JSV) (i : Nat) :
    collectEnabled (i + 1) l
      = (collectEnabled i l).map fun p => (p.1 + 1, p.2) := by
  induction l generalizing i with
  | nil => rfl
  | cons x xs ih =>
    by_cases hx : geZero x
    · simp only [collectEnabled, if_pos hx, List.map_cons]
      rw [ih (i + 1)]
    · simp only [collectEnabled, if_neg hx]
      exact ih (i + 1)

theorem collectEnabled_map_snd (l : List JSV) (i : Nat) :
    (collectEnabled i l).map Prod.snd = l.filter geZero := by
  induction l generalizing i with
  | nil => rfl
  | cons x xs ih =>
    by_cases hx : geZero x
    · rw [collectEnabled, if_pos hx, List.map_cons, ih, List.filter_cons_of_pos hx]
    · rw [collectEnabled, if_neg hx, ih, List.filter_cons_of_neg (by simpa using hx)]

theorem collectEnabled_fst_lb (l : List JSV) (i j : Nat)
    (h : j ∈ (collectEnabled i l).map Prod.fst) : i ≤ j := by
  induction l generalizing i with
  | nil => cases h
  | cons x xs ih =>
    by_cases hx : geZero x
    · rw [collectEnabled, if_pos hx, List.map_cons, List.mem_cons] at h
      rcases h with h | h
      · omega
      · have := ih (i + 1) h; omega
    · rw [collectEnabled, if_neg hx] at h
      have := ih (i + 1) h; omega

theorem collectEnabled_fst_nodup (l : List JSV) (i : Nat) :
    ((collectEnabled i l).map Prod.fst).Nodup := by
  induction l generalizing i with
  | nil => exact List.nodup_nil
  | cons x xs ih =>
    by_cases hx : geZero x
    · rw [collectEnabled, if_pos hx, List.map_cons, List.nodup_cons]
      exact ⟨fun h => by have := collectEnabled_fst_lb xs (i + 1) i h; omega,
        ih (i + 1)⟩
    · rw [collectEnabled, if_neg hx]
      exact ih (i + 1)

/-- Zipping a reversed left list equals reversing the zip with the reversed
right list, when the lengths agree. -/
theorem zip_reverse_left {α β : Type} (a : List α) (b : List β)
    (h : a.length = b.length) : a.reverse.zip b = (a.zip b.reverse).reverse := by
  have hz : (a.zip b.reverse).length = a.length := by
    simp [List.length_zip, h]
  apply List.ext_getElem
  · simp [List.length_zip, h]
  · intro n h₁ h₂
    have hn : n < a.length := by
      simp only [List.length_zip, List.length_reverse] at h₁
      omega
    rw [List.getElem_zip, List.getElem_reverse, List.getElem_reverse,
      List.getElem_zip, List.getElem_reverse]
    have e1 : (a.zip b.reverse).length - 1 - n = a.length - 1 - n := by omega
    have e2 : b.length - 1 - (a.length - 1 - n) = n := by omega
    simp only [e1, e2]

theorem refill_nil (rv : Int) (l : List JSV) :
    refill rv l [] = List.replicate l.length (some rv) := by
  induction l with
  | nil => rfl
  | cons x xs ih => rw [refill, ih, List.length_cons, List.replicate_succ]

theorem refill_cons_neg (rv : Int) (x : JSV) (xs ns : List JSV)
    (hx : ¬ geZero x = true) :
    refill rv (x :: xs) ns = some rv :: refill rv xs ns := by
  cases ns with
  | nil => rw [refill]
  | cons n rest => rw [refill, if_neg hx]

theorem writeNotes_zip_refill (rv : Int) (l : List JSV) (ns : List JSV) :
    writeNotes (((collectEnabled 0 l).map Prod.fst).zip ns)
      (List.replicate l.length (some rv)) = refill rv l ns := by
  induction l generalizing ns with
  | nil => cases ns <;> rfl
  | cons x xs ih =>
    have hcomp :
        (List.map (fun p : Nat × JSV => (p.1 + 1, p.2)) (collectEnabled 0 xs)).map
            Prod.fst
          = ((collectEnabled 0 xs).map Prod.fst).map fun i => i + 1 := by
      simp [List.map_map, Function.comp]
    by_cases hx : geZero x
    · simp only [collectEnabled, if_pos hx, List.map_cons, collectEnabled_succ]
      cases ns with
      | nil =>
        rw [List.zip_nil_right, writeNotes, refill_nil]
      | cons n rest =>
        rw [hcomp, List.zip_cons_cons, List.zip_map_left, List.length_cons,
          List.replicate_succ, writeNotes, List.set_cons_zero]
        have hshape :
            List.map (Prod.map (fun i => i + 1) (id : JSV → JSV))
                (((collectEnabled 0 xs).map Prod.fst).zip rest)
              = List.map (fun p : Nat × JSV => (p.1 + 1, p.2))
                  (((collectEnabled 0 xs).map Prod.fst).zip rest) := by
          apply List.map_congr_left
          intro p _
          cases p
          rfl
        rw [hshape, writeNotes_shift, ih, refill, if_pos hx]
    · simp only [collectEnabled, if_neg hx, collectEnabled_succ]
      rw [hcomp, List.zip_map_left, List.length_cons, List.replicate_succ]
      have hshape :
          List.map (Prod.map (fun i => i + 1) (id : JSV → JSV))
              (((collectEnabled 0 xs).map Prod.fst).zip ns)
            = List.map (fun p : Nat × JSV => (p.1 + 1, p.2))
                (((collectEnabled 0 xs).map Prod.fst).zip ns) := by
        apply List.map_congr_left
        intro p _
        cases p
        rfl
      rw [hshape, writeNotes_shift, ih, refill_cons_neg rv x xs ns hx]

/-- The key structural fact about `noteReverse`: writing the collected notes
at the reversed collected indices is the same as refilling the enabled slots
left to right with the reversed list of collected notes. -/
theorem noteReversePitch_eq_refill (rv : Int) (l : List JSV) :
    noteReversePitch rv l
      = refill rv l (((collectEnabled 0 l).map Prod.snd).reverse) := by
  have hlen : ((collectEnabled 0 l).map Prod.fst).length
      = ((collectEnabled 0 l).map Prod.snd).length := by
    simp
  unfold noteReversePitch
  rw [zip_reverse_left _ _ hlen]
  rw [writeNotes_perm
      ((((collectEnabled 0 l).map Prod.fst).zip
        (((collectEnabled 0 l).map Prod.snd).reverse)).reverse)
      (((collectEnabled 0 l).map Prod.fst).zip
        (((collectEnabled 0 l).map Prod.snd).reverse))
      (List.replicate l.length (some rv))
      (List.reverse_perm _)
      (by
        rw [List.map_reverse, List.nodup_reverse,
          List.map_fst_zip _ _ (by simp [hlen])]
        exact collectEnabled_fst_nodup l 0)]
  exact writeNotes_zip_refill rv l _

theorem isRest_of_geZero (v : JSV) (h : geZero v = true) : isRestJS v = false := by
  cases v with
  | none => cases h
  | some n =>
    simp only [geZero, decide_eq_true_eq] at h
    simp only [isRestJS, decide_eq_false_iff_not]
    omega

theorem refill_map_isRest (l : List JSV) (ns : List JSV)
    (hlen : ns.length = (l.filter geZero).length)
    (hns : ∀ v ∈ ns, geZero v = true) :
    (refill restValue l ns).map isRestJS = l.map fun v => !(geZero v) := by
  induction l generalizing ns with
  | nil => rfl
  | cons x xs ih =>
    by_cases hx : geZero x
    · cases ns with
      | nil => simp [List.filter_cons_of_pos hx] at hlen
      | cons n rest =>
        rw [refill, if_pos hx, List.map_cons, List.map_cons,
          isRest_of_geZero n (hns n (List.mem_cons_self n rest)), hx,
          Bool.not_true]
        rw [ih rest (by simpa [List.filter_cons_of_pos hx] using hlen)
          (fun v hv => hns v (List.mem_cons_of_mem n hv))]
    · have hx' : geZero x = false := by simpa using hx
      rw [refill_cons_neg restValue x xs ns hx, List.map_cons, List.map_cons,
        hx', Bool.not_false]
      have hrest : isRestJS (some restValue) = true := by decide
      rw [hrest]
      rw [ih ns (by simpa [List.filter_cons_of_neg (by simpa using hx)] using hlen)
        hns]

theorem refill_filter_nonrest (l : List JSV) (ns : List JSV)
    (hlen : ns.length = (l.filter geZero).length)
    (hns : ∀ v ∈ ns, geZero v = true) :
    (refill restValue l ns).filter (fun v => !(isRestJS v)) = ns := by
  induction l generalizing ns with
  | nil =>
    have hns0 : ns = [] := List.length_eq_zero.1 (by simpa using hlen)
    rw [hns0]
    rfl
  | cons x xs ih =>
    by_cases hx : geZero x
    · cases ns with
      | nil => simp [List.filter_cons_of_pos hx] at hlen
      | cons n rest =>
        rw [refill, if_pos hx]
        rw [List.filter_cons_of_pos
          (by simp [isRest_of_geZero n (hns n (List.mem_cons_self n rest))])]
        rw [ih rest (by simpa [List.filter_cons_of_pos hx] using hlen)
          (fun v hv => hns v (List.mem_cons_of_mem n hv))]
    · rw [refill_cons_neg restValue x xs ns hx]
      rw [List.filter_cons_of_neg (by simp [isRestJS, restValue])]
      exact ih ns
        (by simpa [List.filter_cons_of_neg (by simpa using hx)] using hlen) hns

theorem mem_collect_snd_geZero (l : List JSV) (v : JSV)
    (h : v ∈ (collectEnabled 0 l).map Prod.snd) : geZero v = true := by
  rw [collectEnabled_map_snd] at h
  exact (List.mem_filter.1 h).2

theorem some_isRest_eq (m : Int) (hm : m = -1 ∨ 0 ≤ m) :
    isRestJS (some m) = !(geZero (some m)) := by
  rcases hm with hm | hm
  · rw [hm]
    decide
  · have hne : m ≠ -1 := by omega
    simp [isRestJS, geZero, hm, hne]

theorem runEvents_sustain_empty (es : List Event) :
    ∀ st : EngineState, st.sustainList = [] →
      (∀ e ∈ es, isSetEnvelope e = false) →
      (runEvents st es).sustainList = [] := by
  induction es with
  | nil =>
    intro st hst _
    exact hst
  | cons e rest ih =>
    intro st hst hes
    have hrest : ∀ x ∈ rest, isSetEnvelope x = false :=
      fun x hx => hes x (List.mem_cons_of_mem e hx)
    cases e with
    | pitches l =>
      rw [runEvents]
      have hfst : (step st (.pitches l)).1 = st := by
        simp only [step]
        split <;> rfl
      rw [hfst]
      exact ih st hst hrest
    | envelope l =>
      have hcontra := hes (.envelope l) (List.mem_cons_self _ _)
      simp [isSetEnvelope] at hcontra
    | setMode i =>
      rw [runEvents]
      exact ih _ (by simpa [step] using hst) hrest
    | setScale i =>
      rw [runEvents]
      exact ih _ (by simpa [step] using hst) hrest

/-! ## Claims -/

/-- Claim C1 (code bug, evaluated at the failing input): with stored envelope
`[attack, sustain, release]`, the `trueReverse` sustain output is the stage
sequence `[release, sustain, attack]` — the stage map is applied elementwise
in ascending index order with no reversal — and not the claimed
`[attack, sustain, release]` (map of the reversed sequence). -/
theorem trueReverse_sustain_elementwise :
    (trueReverse matrixRowC [attack, sustain, release]
        [some 1, some 2, some 3]).2
      = [(0, matrixRowC, some release), (1, matrixRowC, some sustain),
          (2, matrixRowC, some attack)]
    ∧ (trueReverse matrixRowC [attack, sustain, release]
        [some 1, some 2, some 3]).2
      ≠ [(0, matrixRowC, some attack), (1, matrixRowC, some sustain),
          (2, matrixRowC, some release)] := by
  decide

/-- Claim C2 (code bug, evaluated at the failing input): with pitch input
`[0, 5]` and the modulo base `15`, the `inverse` accumulation uses the JS
truncated remainder and yields the negative, out-of-range element `-5`
(which is not the rest value), contradicting the claimed invariant
`0 <= output[i] < ModuloBase` for non-rest outputs. -/
theorem inverse_negative_remainder :
    inverseRun maxPatternRangeC [some 0, some 5] = [some 0, some (-5)]
    ∧ ¬ (0 ≤ (-5 : Int)) ∧ isRestJS (some (-5)) = false := by
  decide

/-- Claim C3 (counterexample): on input `[5, 3, 7, -1, 2]` with modulo base
`15`, the `inverse` pitch output is not the claimed `[5, 7, 3, -1, 8]`. -/
theorem inverse_example_not_eight :
    inverseRun maxPatternRangeC [some 5, some 3, some 7, some (-1), some 2]
      ≠ [some 5, some 7, some 3, some (-1), some 8] := by
  decide

/-- Claim C3 (amended): on input `[5, 3, 7, -1, 2]` with modulo base `15`,
the deltas are `[2, -4, 0, 5]` and the output is `[5, 7, 3, -1, 4]`: the
accumulation at position 4 starts from the preceding output element, which
is the rest's own `-1`, so `(-1 + 5) % 15 = 4` (not `8`). -/
theorem inverse_example_output :
    inverseRun maxPatternRangeC [some 5, some 3, some 7, some (-1), some 2]
      = [some 5, some 7, some 3, some (-1), some 4]
    ∧ distTail (some 5) [some 3, some 7, some (-1), some 2]
      = [some 2, some (-4), some 0, some 5] := by
  decide

/-- Claim C4 (counterexample): `noteReverse` treats every negative value as
a rest (`note >= 0` is the collection test), so on input `[-2]` the output
is `[-1]`: position 0 holds the rest value in the output but not in the
input, refuting the claim for unconstrained signed inputs. -/
theorem noteReverse_negative_value_cex :
    (noteReversePitch restValue [some (-2)]).map isRestJS
      ≠ [some (-2)].map isRestJS := by
  decide

/-- Claim C4 (amended): for every pitch input whose values are each either
the rest sentinel `-1` or nonnegative, `noteReverse` preserves the set of
rest positions (pointwise equality of the rest indicator, which also fixes
equal lengths) and the multiset of non-rest values. -/
theorem noteReverse_preserves_rests_and_values (l : List Int)
    (h : ∀ v ∈ l, v = -1 ∨ 0 ≤ v) :
    (noteReversePitch restValue (l.map some)).map isRestJS
        = (l.map some).map isRestJS
    ∧ (((noteReversePitch restValue (l.map some)).filter fun v => !(isRestJS v))
        : Multiset JSV)
      = (((l.map some).filter fun v => !(isRestJS v)) : Multiset JSV) := by
  have hsn : ∀ v ∈ (collectEnabled 0 (l.map some)).map Prod.snd,
      geZero v = true :=
    fun v hv => mem_collect_snd_geZero _ v hv
  have hrev : ∀ v ∈ ((collectEnabled 0 (l.map some)).map Prod.snd).reverse,
      geZero v = true :=
    fun v hv => hsn v (List.mem_reverse.1 hv)
  have hlen : (((collectEnabled 0 (l.map some)).map Prod.snd).reverse).length
      = ((l.map some).filter geZero).length := by
    rw [List.length_reverse, collectEnabled_map_snd]
  have hpt : ∀ v ∈ l.map some, isRestJS v = !(geZero v) := by
    intro v hv
    obtain ⟨m, hm, rfl⟩ := List.mem_map.1 hv
    exact some_isRest_eq m (h m hm)
  constructor
  · rw [noteReversePitch_eq_refill, refill_map_isRest _ _ hlen hrev]
    exact (List.map_congr_left hpt).symm
  · rw [noteReversePitch_eq_refill, refill_filter_nonrest _ _ hlen hrev]
    have hfc : (l.map some).filter (fun v => !(isRestJS v))
        = (l.map some).filter geZero := by
      apply List.filter_congr
      intro v hv
      rw [hpt v hv, Bool.not_not]
    rw [hfc, ← collectEnabled_map_snd (l.map some) 0]
    exact Multiset.coe_eq_coe.2 (List.reverse_perm _)

/-- Claim C4 witness: the amended preservation statement at the concrete
input `[5, -1, 3, 7, -1, 2]`. -/
theorem noteReverse_preserves_rests_and_values_witness :
    (noteReversePitch restValue ([5, -1, 3, 7, -1, 2].map some)).map isRestJS
        = (([5, -1, 3, 7, -1, 2] : List Int).map some).map isRestJS
    ∧ (((noteReversePitch restValue
          (([5, -1, 3, 7, -1, 2] : List Int).map some)).filter
            fun v => !(isRestJS v)) : Multiset JSV)
      = (((([5, -1, 3, 7, -1, 2] : List Int).map some).filter
            fun v => !(isRestJS v)) : Multiset JSV) :=
  noteReverse_preserves_rests_and_values [5, -1, 3, 7, -1, 2] (by decide)

/-- Claim C5 (counterexample): in Inverse mode (`updateMode = 3`) with a
stored envelope, an empty pitch list does not fail: the handler emits the
envelope output and a one-element pitch output holding the JS `undefined`
value, refuting "fails with EmptyInput and does not emit any output". -/
theorem inverse_empty_input_emits :
    (step (⟨[attack], 3, 7⟩ : EngineState) (.pitches [])).2
      = .ok [Msg.env [(0, matrixRowC, some attack)], Msg.pitch [none]] := rfl

/-- Claim C5 (amended): with a stored envelope, an empty pitch input never
fails in any mode; under Identity, NoteReverse and TrueReverse the pitch
output is empty, while under Inverse and the ReverseInverse fallback it is
the one-element list `[undefined]` (the JS read `valueList[0]` of an empty
array). -/
theorem empty_input_no_failure (st : EngineState) (hs : st.sustainList ≠ []) :
    (step st (.pitches [])).2 = .ok (outputMsgs (runTransform st []))
    ∧ ((st.updateMode = 0 ∨ st.updateMode = 1 ∨ st.updateMode = 2) →
        (runTransform st []).1 = [])
    ∧ (¬ (st.updateMode = 0 ∨ st.updateMode = 1 ∨ st.updateMode = 2) →
        (runTransform st []).1 = [none]) := by
  have hpos : ¬ st.sustainList.length ≤ 0 := by
    intro hle
    exact hs (List.length_eq_zero.1 (Nat.le_zero.1 hle))
  refine ⟨?_, ?_, ?_⟩
  · simp only [step, if_neg hpos, List.map_nil]
  · intro hm
    rcases hm with hm | hm | hm <;>
      simp [runTransform, hm, identity, noteReverse, noteReversePitch,
        collectEnabled, writeNotes, trueReverse]
  · intro hm
    have h0 : st.updateMode ≠ 0 := fun hc => hm (Or.inl hc)
    have h1 : st.updateMode ≠ 1 := fun hc => hm (Or.inr (Or.inl hc))
    have h2 : st.updateMode ≠ 2 := fun hc => hm (Or.inr (Or.inr hc))
    by_cases h3 : st.updateMode = 3
    · simp [runTransform, h0, h1, h2, h3, inverse, inverseRun]
    · simp [runTransform, h0, h1, h2, h3, reverseInverse, trueReverse,
        inverseRun]

/-- Claim C5 witness: the amended statement at a concrete Inverse-mode
state with stored envelope `[attack]`. -/
theorem empty_input_no_failure_witness :
    (step (⟨[attack], 3, 7⟩ : EngineState) (.pitches [])).2
      = .ok (outputMsgs (runTransform ⟨[attack], 3, 7⟩ [])) :=
  (empty_input_no_failure ⟨[attack], 3, 7⟩ (by decide)).1

/-- Claim C6: after any sequence of messages containing no envelope (inlet 1)
message, delivering a pitch list fails with the missing-envelope error,
emits nothing, and returns the engine state unchanged. -/
theorem transform_before_envelope_fails (es : List Event)
    (hes : ∀ e ∈ es, isSetEnvelope e = false) (l : List Int) :
    step (runEvents initialState es) (.pitches l)
      = (runEvents initialState es, .error .missingEnvelope) := by
  have hsus : (runEvents initialState es).sustainList = [] :=
    runEvents_sustain_empty es initialState rfl hes
  simp [step, hsus]

/-- Claim C6 witness: the failure at the concrete trace
`[setMode 4, setScale 3]` and pitch input `[5, 2]`. -/
theorem transform_before_envelope_fails_witness :
    step (runEvents initialState [Event.setMode 4, Event.setScale 3])
        (.pitches [5, 2])
      = (runEvents initialState [Event.setMode 4, Event.setScale 3],
          .error .missingEnvelope) :=
  transform_before_envelope_fails [Event.setMode 4, Event.setScale 3]
    (by decide) [5, 2]

/-- Claim C7: in ReverseInverse mode (any mode outside 0..3), one transform
produces exactly the pitch and tagged-envelope outputs of first running the
Inverse transform (mode 3) and then running the TrueReverse transform
(mode 2) on Inverse's pitch output, with the same stored envelope. -/
theorem reverseInverse_composition (st : EngineState) (P : List JSV)
    (hP : P ≠ []) (h0 : st.updateMode ≠ 0) (h1 : st.updateMode ≠ 1)
    (h2 : st.updateMode ≠ 2) (h3 : st.updateMode ≠ 3) :
    runTransform st P
      = runTransform { st with updateMode := 2 }
          ((runTransform { st with updateMode := 3 } P).1) := by
  simp [runTransform, h0, h1, h2, h3, reverseInverse, inverse, trueReverse]

/-- Claim C7 witness: the composition law at mode 4, stored envelope
`[attack, release]` and pitch input `[5, 3]`. -/
theorem reverseInverse_composition_witness :
    runTransform ⟨[attack, release], 4, 7⟩ [some 5, some 3]
      = runTransform
          { (⟨[attack, release], 4, 7⟩ : EngineState) with updateMode := 2 }
          ((runTransform
              { (⟨[attack, release], 4, 7⟩ : EngineState) with
                  updateMode := 3 } [some 5, some 3]).1) :=
  reverseInverse_composition ⟨[attack, release], 4, 7⟩ [some 5, some 3]
    (by decide) (by decide) (by decide) (by decide) (by decide)

/-- Claim C8: the `trueReverse` pitch transformation is an involution (two
applications restore any pitch list, whatever envelopes are stored at the
two calls), and `envelopeInverseMap` is self-inverse on each of the four
stage codes. -/
theorem trueReverse_involution (row row2 : Int) (sl sl2 : List Int)
    (l : List JSV) (s : Int)
    (hs : s = full ∨ s = attack ∨ s = sustain ∨ s = release) :
    (trueReverse row2 sl2 (trueReverse row sl l).1).1 = l
    ∧ (envelopeInverseMap s).bind envelopeInverseMap = some s := by
  constructor
  · simp [trueReverse]
  · rcases hs with hs | hs | hs | hs <;> rw [hs] <;> decide

/-- Claim C8 witness: the involution at `[9, -1, 4]` and the self-inverse
property at the attack stage. -/
theorem trueReverse_involution_witness :
    (trueReverse 0 [] (trueReverse 0 [] [some 9, some (-1), some 4]).1).1
        = [some 9, some (-1), some 4]
    ∧ (envelopeInverseMap attack).bind envelopeInverseMap = some attack :=
  trueReverse_involution 0 0 [] [] [some 9, some (-1), some 4] attack
    (Or.inr (Or.inl rfl))

/-- Claim C9: the stored scale length is never consulted by a transform:
two pitch deliveries that differ only in the configured scale length
produce identical results (same success or failure, same emitted envelope
and pitch outputs). -/
theorem scaleLength_no_effect (st : EngineState) (c : Int) (l : List Int) :
    (step { st with scaleLength := c } (.pitches l)).2
      = (step st (.pitches l)).2 := by
  have hrt : runTransform { st with scaleLength := c } (l.map some)
      = runTransform st (l.map some) := rfl
  by_cases hc : st.sustainList.length ≤ 0
  · simp [step, hc]
  · simp [step, hc, hrt]

/-- Claim C10: mode dispatch is total with the ReverseInverse branch as the
catch-all: with a stored envelope, a pitch delivery under any configured
mode other than 0, 1, 2, 3 (negative values and values above 4 included)
succeeds and runs the `reverseInverse` algorithm; no mode value is
rejected. -/
theorem mode_dispatch_fallback (st : EngineState) (l : List Int)
    (hs : st.sustainList ≠ []) (h0 : st.updateMode ≠ 0)
    (h1 : st.updateMode ≠ 1) (h2 : st.updateMode ≠ 2)
    (h3 : st.updateMode ≠ 3) :
    (step st (.pitches l)).2
      = .ok (outputMsgs
          (reverseInverse maxPatternRangeC matrixRowC st.sustainList
            (l.map some))) := by
  simp [step, runTransform, h0, h1, h2, h3, hs]

/-- Claim C10 witness: the fallback at the negative mode `-7`. -/
theorem mode_dispatch_fallback_witness :
    (step (⟨[release], -7, 7⟩ : EngineState) (.pitches [2, -1])).2
      = .ok (outputMsgs
          (reverseInverse maxPatternRangeC matrixRowC [release]
            (([2, -1] : List Int).map some))) :=
  mode_dispatch_fallback ⟨[release], -7, 7⟩ [2, -1] (by decide) (by decide)
    (by decide) (by decide) (by decide)

end PatternInverter
